import Mathlib

/-!
Verification of the change-extraction pipeline of `git-analyzer` (`src/main.rs`).

The embedding translates the Rust source:
  * `FileInfo`, `GitLogEntry` — the record types (`main.rs:10-26`);
  * `parse_int` — `input.parse::<i32>()` with `-1` fallback (`main.rs:97-102`);
  * `matchNumstatLine` — the regex `^(\d+)[ ]+(\d+)[ ]+(\S+)$` (`main.rs:54`),
    implemented as maximal-munch spans, which coincides with the regex because
    the digit / space / non-whitespace character classes are disjoint at every
    boundary (`\d` is modelled by `Char.isDigit`; the ASCII fragments agree);
  * `process_numberstats` — the numstat parsing loop (`main.rs:48-95`);
  * `get_diff_delta_status` — the status classifier (`main.rs:104-119`);
  * `walk_history` — the history walker (`main.rs:121-192`), over an explicit
    repository model standing for the external libgit2 collaborator; `.unwrap()`
    panics are modelled by a distinct `panic` outcome.

Rust `HashMap<String, FileInfo>` is modelled by an association list with
insert-replaces-key semantics (`alInsert`); all claims about the maps are
content claims, for which this is faithful.
-/

namespace GitAnalyzer

/-- The code points with the Unicode `White_Space` property (stable since
Unicode 6.3): this is Rust `char::is_whitespace` and the regex crate's `\s`.
`\S` and `str::trim` are defined from it. -/
def isRustWhitespace (c : Char) : Bool :=
  (decide (0x09 ≤ c.toNat) && decide (c.toNat ≤ 0x0D)) || decide (c.toNat = 0x20) ||
  decide (c.toNat = 0x85) || decide (c.toNat = 0xA0) || decide (c.toNat = 0x1680) ||
  (decide (0x2000 ≤ c.toNat) && decide (c.toNat ≤ 0x200A)) || decide (c.toNat = 0x2028) ||
  decide (c.toNat = 0x2029) || decide (c.toNat = 0x202F) || decide (c.toNat = 0x205F) ||
  decide (c.toNat = 0x3000)

/-- The non-ASCII ranges of the Unicode general category `Nd` (Decimal_Number),
per Unicode 15.0 — the character class behind the regex crate's `\d` beyond
the ASCII digits. -/
def ndExtraRanges : List (Nat × Nat) :=
  [(0x0660, 0x0669), (0x06F0, 0x06F9), (0x07C0, 0x07C9), (0x0966, 0x096F),
   (0x09E6, 0x09EF), (0x0A66, 0x0A6F), (0x0AE6, 0x0AEF), (0x0B66, 0x0B6F),
   (0x0BE6, 0x0BEF), (0x0C66, 0x0C6F), (0x0CE6, 0x0CEF), (0x0D66, 0x0D6F),
   (0x0DE6, 0x0DEF), (0x0E50, 0x0E59), (0x0ED0, 0x0ED9), (0x0F20, 0x0F29),
   (0x1040, 0x1049), (0x1090, 0x1099), (0x17E0, 0x17E9), (0x1810, 0x1819),
   (0x1946, 0x194F), (0x19D0, 0x19D9), (0x1A80, 0x1A89), (0x1A90, 0x1A99),
   (0x1B50, 0x1B59), (0x1BB0, 0x1BB9), (0x1C40, 0x1C49), (0x1C50, 0x1C59),
   (0xA620, 0xA629), (0xA8D0, 0xA8D9), (0xA900, 0xA909), (0xA9D0, 0xA9D9),
   (0xA9F0, 0xA9F9), (0xAA50, 0xAA59), (0xABF0, 0xABF9), (0xFF10, 0xFF19),
   (0x104A0, 0x104A9), (0x10D30, 0x10D39), (0x11066, 0x1106F), (0x110F0, 0x110F9),
   (0x11136, 0x1113F), (0x111D0, 0x111D9), (0x112F0, 0x112F9), (0x11450, 0x11459),
   (0x114D0, 0x114D9), (0x11650, 0x11659), (0x116C0, 0x116C9), (0x11730, 0x11739),
   (0x118E0, 0x118E9), (0x11950, 0x11959), (0x11C50, 0x11C59), (0x11D50, 0x11D59),
   (0x11DA0, 0x11DA9), (0x11F50, 0x11F59), (0x16A60, 0x16A69), (0x16AC0, 0x16AC9),
   (0x16B50, 0x16B59), (0x1D7CE, 0x1D7FF), (0x1E140, 0x1E149), (0x1E2F0, 0x1E2F9),
   (0x1E4F0, 0x1E4F9), (0x1E950, 0x1E959), (0x1FBF0, 0x1FBF9)]

/-- Character class of the regex atom `\d`: Unicode `\p{Nd}` (the regex crate
is Unicode-aware by default) — the ASCII digits plus the other decimal-digit
blocks. -/
def isDigitB (c : Char) : Bool :=
  c.isDigit ||
    ndExtraRanges.any (fun r => decide (r.1 ≤ c.toNat) && decide (c.toNat ≤ r.2))

/-- Character class of the regex atom `[ ]` (a literal space, not general whitespace). -/
def isSpaceB (c : Char) : Bool := c = ' '

/-- Character class of the regex atom `\S`: the complement of Unicode
`White_Space`. -/
def isNonWsB (c : Char) : Bool := !isRustWhitespace c

/-- Numeric value of a string of decimal digits, most significant first. -/
def digitsToNat (ds : List Char) : Nat :=
  ds.foldl (fun n c => 10 * n + (c.toNat - 48)) 0

/-- Rust `<i32 as FromStr>::from_str` on an unsigned digit body: nonempty, all
ASCII digits, value within the given bound (`2147483647` for positive,
`2147483648` for the negated body). -/
def parseDigits (bound : Nat) (ds : List Char) : Option Nat :=
  if ds ≠ [] ∧ ds.all Char.isDigit ∧ digitsToNat ds ≤ bound then some (digitsToNat ds) else none

/-- Body of Rust `input.parse::<i32>()`: optional sign, then ASCII digits, in-range. -/
def parseI32core : List Char → Option Int
  | [] => none
  | c :: rest =>
    if c = '+' then (parseDigits 2147483647 rest).map (fun n => (n : Int))
    else if c = '-' then (parseDigits 2147483648 rest).map (fun n => -(n : Int))
    else (parseDigits 2147483647 (c :: rest)).map (fun n => (n : Int))

/-- Rust `input.parse::<i32>()`. -/
def parseI32 (s : String) : Option Int := parseI32core s.toList

/-- `fn parse_int` (`main.rs:97-102`): parse as `i32`, coercing failure to `-1`. -/
def parse_int (input : String) : Int :=
  match parseI32 input with
  | some number => number
  | none => -1

/-- The regex `^(\d+)[ ]+(\d+)[ ]+(\S+)$` (`main.rs:54`) applied to one line.
Returns the three capture groups `(added, removed, path)` on a match. -/
def matchNumstatLine (line : String) : Option (String × String × String) :=
  let cs := line.toList
  let d1 := cs.takeWhile isDigitB
  let r1 := cs.dropWhile isDigitB
  let s1 := r1.takeWhile isSpaceB
  let r2 := r1.dropWhile isSpaceB
  let d2 := r2.takeWhile isDigitB
  let r3 := r2.dropWhile isDigitB
  let s2 := r3.takeWhile isSpaceB
  let p := r3.dropWhile isSpaceB
  if d1 ≠ [] ∧ s1 ≠ [] ∧ d2 ≠ [] ∧ s2 ≠ [] ∧ p ≠ [] ∧ p.all isNonWsB then
    some (d1.asString, d2.asString, p.asString)
  else none

/-- `struct FileInfo` (`main.rs:10-16`). -/
structure FileInfo where
  path : String
  status : String
  added_lines : Option Int
  removed_lines : Option Int
deriving DecidableEq, Repr

/-- `struct GitLogEntry` (`main.rs:18-26`); `author_when` is the `DateTime<Utc>`
modelled by its epoch-second value. -/
structure GitLogEntry where
  id : String
  summary : String
  author_name : String
  author_email : String
  author_when : Int
  files : List FileInfo
deriving DecidableEq, Repr

/-- An error value from the git library (`git2::Error`). -/
structure GitErr where
  msg : String
deriving DecidableEq, Repr

/-- Decidable equality for `Except`, needed by the derived instances below. -/
instance exceptDecEq {ε α : Type} [DecidableEq ε] [DecidableEq α] :
    DecidableEq (Except ε α) := fun x y =>
  match x, y with
  | Except.error a, Except.error b =>
    if h : a = b then isTrue (by rw [h]) else isFalse (fun hc => by cases hc; exact h rfl)
  | Except.ok a, Except.ok b =>
    if h : a = b then isTrue (by rw [h]) else isFalse (fun hc => by cases hc; exact h rfl)
  | Except.error _, Except.ok _ => isFalse (fun hc => by cases hc)
  | Except.ok _, Except.error _ => isFalse (fun hc => by cases hc)

/-- `git2::Delta` — the library-native per-file status tag. -/
inductive Delta where
  | Added | Unmodified | Deleted | Modified | Copied | Ignored
  | Untracked | Typechange | Unreadable | Conflicted | Renamed
deriving DecidableEq, Repr

/-- `fn get_diff_delta_status` (`main.rs:104-119`). -/
def get_diff_delta_status (delta : Delta) : String :=
  match delta with
  | Delta.Added => "Added"
  | Delta.Unmodified => "Unmodified"
  | Delta.Deleted => "Deleted"
  | Delta.Modified => "Modified"
  | Delta.Copied => "Copied"
  | Delta.Ignored => "Ignored"
  | Delta.Untracked => "Untracked"
  | Delta.Typechange => "Typechange"
  | Delta.Unreadable => "Unreadable"
  | Delta.Conflicted => "Conflicted"
  | Delta.Renamed => "Renamed"

/-- `fn convert_git_time_to_datetime` (`main.rs:41-46`):
`Utc.timestamp(seconds + offset_minutes * 60, 0)`. -/
def convert_git_time_to_datetime (seconds offset_minutes : Int) : Int :=
  seconds + offset_minutes * 60

/-! ## Association-list model of `HashMap<String, FileInfo>` -/

/-- Lookup, as `HashMap::get`. -/
def alGet {α : Type} : List (String × α) → String → Option α
  | [], _ => none
  | (k', v) :: rest, k => if k' = k then some v else alGet rest k

/-- Remove every binding of a key. -/
def alErase {α : Type} : List (String × α) → String → List (String × α)
  | [], _ => []
  | (k', v) :: rest, k => if k' = k then alErase rest k else (k', v) :: alErase rest k

/-- Insert, as `HashMap::insert` (replaces any existing binding of the key). -/
def alInsert {α : Type} (m : List (String × α)) (k : String) (v : α) : List (String × α) :=
  (k, v) :: alErase m k

/-- The key list of a map. -/
def alKeys {α : Type} (m : List (String × α)) : List String := m.map Prod.fst

/-- The value list of a map, as `HashMap::values`. -/
def alVals {α : Type} (m : List (String × α)) : List α := m.map Prod.snd

/-! ## The numstat parsing loop (`process_numberstats`, `main.rs:48-95`) -/

/-- The record built at `main.rs:76-84`: the status map's entry with the two
captured digit fields run through `parse_int`. -/
def numstatRecord (fi : FileInfo) (added removed : String) : FileInfo :=
  { path := fi.path, status := fi.status,
    added_lines := some (parse_int added), removed_lines := some (parse_int removed) }

/-- One iteration of the `for line in lines` loop (`main.rs:64-93`). -/
def numstatStep (files_map : List (String × FileInfo)) (result : List (String × FileInfo))
    (line : String) : List (String × FileInfo) :=
  match matchNumstatLine line with
  | some (added, removed, path) =>
    match alGet files_map path with
    | some fi => alInsert result path (numstatRecord fi added removed)
    | none => result
  | none => result

/-- A per-file change observation of the diff: `delta.new_file().path()` (with
`none` modelling a missing path, which the source `.unwrap()`s) and the status tag. -/
structure DeltaModel where
  new_file_path : Option String
  status : Delta
deriving DecidableEq, Repr

/-- The diff object for one commit, as far as `process_numberstats` and the
delta loop consume it: the delta list, and the combined result of
`diff.stats()` / `stats.to_buf(NUMBER, 80)` — an error, or the rendered buffer
(`some` text when valid UTF-8, `none` for invalid UTF-8, which
`from_utf8(..).unwrap_or("")` turns into the empty text). -/
structure DiffModel where
  deltas : List DeltaModel
  statsBuf : Except GitErr (Option String)
deriving DecidableEq, Repr

/-- Rust `str::trim`: drop Unicode-`White_Space` characters from both ends
(structural recursion so proofs can evaluate it). -/
def trimChars (cs : List Char) : List Char :=
  ((cs.dropWhile isRustWhitespace).reverse.dropWhile isRustWhitespace).reverse

/-- Rust `str::split("\n")`: the pieces between newline separators, keeping
empty pieces (the split of the empty text is one empty piece). -/
def splitNl : List Char → List (List Char)
  | [] => [[]]
  | c :: rest =>
    let r := splitNl rest
    if c = '\n' then [] :: r
    else
      match r with
      | [] => [[c]]
      | h :: t => (c :: h) :: t

/-- `numberstats.trim().split("\n")` (`main.rs:62`). -/
def numstatLines (text : String) : List String :=
  (splitNl (trimChars text.toList)).map List.asString

/-- `fn process_numberstats` (`main.rs:48-95`). -/
def process_numberstats (diff : DiffModel) (files_map : List (String × FileInfo)) :
    Except GitErr (List (String × FileInfo)) :=
  match diff.statsBuf with
  | Except.error e => Except.error e
  | Except.ok buf =>
    let numberstats := buf.getD ""
    let lines := numstatLines numberstats
    Except.ok (lines.foldl (numstatStep files_map) [])

/-! ## The history walker (`walk_history`, `main.rs:121-192`) -/

/-- Commit metadata as read from the repository: `summary` is the already
lossily-decoded first message line; author name/email are `none` exactly when
the library reports no value; `parentCount` is `commit.parent_count()`;
`diffResult` is the combined outcome of
`commit.parent(0)? / commit.tree()? / prev_commit.tree()? / diff_tree_to_tree?`
(`main.rs:146-149`), consulted only for one-parent commits. -/
structure CommitModel where
  id : String
  summary : String
  author_name : Option String
  author_email : Option String
  timeSeconds : Int
  timeOffsetMinutes : Int
  parentCount : Nat
  diffResult : Except GitErr DiffModel
deriving DecidableEq, Repr

/-- The repository collaborator: outcomes of `Repository::open`, `repo.revwalk()`,
`revwalk.push_head()`, and the revwalk sequence, each element being a failed
(`rev?` / `find_commit?`) or successfully read commit. Per the spec (§6) the
traversal is requested time-ascending (`Sort::TIME | Sort::REVERSE`,
`main.rs:126`; the `set_sorting` error is discarded by `let _ =`). -/
structure RepoModel where
  openResult : Except GitErr Unit
  revwalkResult : Except GitErr Unit
  pushHeadResult : Except GitErr Unit
  revs : List (Except GitErr CommitModel)
deriving DecidableEq, Repr

/-- Outcome of processing one commit: a record, a propagated error (`?`), or an
abnormal termination (`.unwrap()` panic). -/
inductive StepRes where
  | ok (entry : GitLogEntry)
  | err (e : GitErr)
  | panic
deriving DecidableEq, Repr

/-- Outcome of the whole walk. -/
inductive WalkResult where
  | ok (entries : List GitLogEntry)
  | err (e : GitErr)
  | panic
deriving DecidableEq, Repr

/-- The author-defaulting rule (`main.rs:132-139`). -/
def authorOrNone (o : Option String) : String :=
  match o with
  | none => "<none>"
  | some n => n

/-- The delta loop (`main.rs:151-165`): build the initial status map; a delta
whose `new_file().path()` is `None` hits `.unwrap()` (`main.rs:152`), modelled
as `none`. -/
def buildFilesMap : List DeltaModel → List (String × FileInfo) →
    Option (List (String × FileInfo))
  | [], m => some m
  | d :: rest, m =>
    match d.new_file_path with
    | none => none
    | some p =>
      buildFilesMap rest
        (alInsert m p
          { path := p, status := get_diff_delta_status d.status,
            added_lines := none, removed_lines := none })

/-- The merge loop (`main.rs:167-174`): each parsed record is re-inserted into
the status map keyed by its own `path` field. -/
def mergeUpdates (files_map updates : List (String × FileInfo)) :
    List (String × FileInfo) :=
  updates.foldl (fun m kv => alInsert m kv.2.path kv.2) files_map

/-- Assembling one `GitLogEntry` (`main.rs:176-188`). -/
def mkEntry (c : CommitModel) (files : List FileInfo) : GitLogEntry :=
  { id := c.id, summary := c.summary,
    author_name := authorOrNone c.author_name,
    author_email := authorOrNone c.author_email,
    author_when := convert_git_time_to_datetime c.timeSeconds c.timeOffsetMinutes,
    files := files }

/-- The loop body of `walk_history` for one commit (`main.rs:127-188`).
`process_numberstats(..).unwrap()` (`main.rs:166`) turns its error into a panic. -/
def processCommit (c : CommitModel) : StepRes :=
  if c.parentCount = 1 then
    match c.diffResult with
    | Except.error e => StepRes.err e
    | Except.ok diff =>
      match buildFilesMap diff.deltas [] with
      | none => StepRes.panic
      | some files_map =>
        match process_numberstats diff files_map with
        | Except.error _ => StepRes.panic
        | Except.ok new_files_map =>
          StepRes.ok (mkEntry c (alVals (mergeUpdates files_map new_files_map)))
  else StepRes.ok (mkEntry c [])

/-- The revwalk loop of `walk_history`. -/
def goWalk : List (Except GitErr CommitModel) → List GitLogEntry → WalkResult
  | [], acc => WalkResult.ok acc
  | Except.error e :: _, _ => WalkResult.err e
  | Except.ok c :: rest, acc =>
    match processCommit c with
    | StepRes.err e => WalkResult.err e
    | StepRes.panic => WalkResult.panic
    | StepRes.ok entry => goWalk rest (acc ++ [entry])

/-- `fn walk_history` (`main.rs:121-192`). -/
def walk_history (repo : RepoModel) : WalkResult :=
  match repo.openResult with
  | Except.error e => WalkResult.err e
  | Except.ok _ =>
    match repo.revwalkResult with
    | Except.error e => WalkResult.err e
    | Except.ok _ =>
      match repo.pushHeadResult with
      | Except.error e => WalkResult.err e
      | Except.ok _ => goWalk repo.revs []

/-! ## Association-list lemmas -/

theorem alGet_cons {α : Type} (k' k : String) (v : α) (rest : List (String × α)) :
    alGet ((k', v) :: rest) k = if k' = k then some v else alGet rest k := rfl

theorem alGet_insert_self {α : Type} (m : List (String × α)) (k : String) (v : α) :
    alGet (alInsert m k v) k = some v := by
  simp [alInsert, alGet_cons]

theorem alGet_erase_ne {α : Type} (m : List (String × α)) (k k' : String) (h : k' ≠ k) :
    alGet (alErase m k) k' = alGet m k' := by
  induction m with
  | nil => rfl
  | cons kv rest ih =>
    obtain ⟨k0, v0⟩ := kv
    by_cases h0 : k0 = k
    · have hk : k0 ≠ k' := fun hh => h (hh ▸ h0)
      rw [alErase, if_pos h0, alGet_cons, if_neg hk, ih]
    · rw [alErase, if_neg h0, alGet_cons, alGet_cons]
      by_cases h1 : k0 = k'
      · rw [if_pos h1, if_pos h1]
      · rw [if_neg h1, if_neg h1, ih]

theorem alGet_insert_ne {α : Type} (m : List (String × α)) (k k' : String) (v : α)
    (h : k' ≠ k) : alGet (alInsert m k v) k' = alGet m k' := by
  have hk : k ≠ k' := fun hh => h hh.symm
  simp [alInsert, alGet_cons, hk, alGet_erase_ne m k k' h]

theorem alGet_mem {α : Type} {m : List (String × α)} {k : String} {v : α}
    (h : alGet m k = some v) : (k, v) ∈ m := by
  induction m with
  | nil => simp [alGet] at h
  | cons kv rest ih =>
    obtain ⟨k0, v0⟩ := kv
    rw [alGet_cons] at h
    by_cases h0 : k0 = k
    · rw [if_pos h0] at h
      cases h
      subst h0
      exact List.mem_cons_self _ _
    · rw [if_neg h0] at h
      exact List.mem_cons_of_mem _ (ih h)

theorem alGet_none_keys {α : Type} {m : List (String × α)} {k : String}
    (h : alGet m k = none) : k ∉ alKeys m := by
  induction m with
  | nil => simp [alKeys]
  | cons kv rest ih =>
    obtain ⟨k0, v0⟩ := kv
    rw [alGet_cons] at h
    by_cases h0 : k0 = k
    · rw [if_pos h0] at h; cases h
    · rw [if_neg h0] at h
      simp [alKeys]
      exact ⟨fun hh => h0 hh.symm, by simpa [alKeys] using ih h⟩

theorem mem_keys_get {α : Type} {m : List (String × α)} {k : String}
    (h : k ∈ alKeys m) : ∃ v, alGet m k = some v := by
  cases hg : alGet m k with
  | some v => exact ⟨v, rfl⟩
  | none => exact absurd h (alGet_none_keys hg)

theorem alErase_sublist {α : Type} (m : List (String × α)) (k : String) :
    List.Sublist (alErase m k) m := by
  induction m with
  | nil => exact List.Sublist.refl _
  | cons kv rest ih =>
    obtain ⟨k0, v0⟩ := kv
    by_cases h0 : k0 = k
    · rw [alErase, if_pos h0]; exact ih.cons _
    · rw [alErase, if_neg h0]; exact ih.cons₂ _

theorem alKeys_erase_not_mem {α : Type} (m : List (String × α)) (k : String) :
    k ∉ alKeys (alErase m k) := by
  induction m with
  | nil => simp [alErase, alKeys]
  | cons kv rest ih =>
    obtain ⟨k0, v0⟩ := kv
    by_cases h0 : k0 = k
    · rw [alErase, if_pos h0]; exact ih
    · rw [alErase, if_neg h0]
      intro hmem
      have hmem2 : k ∈ k0 :: alKeys (alErase rest k) := by simpa [alKeys] using hmem
      rcases List.mem_cons.mp hmem2 with h1 | h1
      · exact h0 h1.symm
      · exact ih h1

theorem alKeys_insert_nodup {α : Type} {m : List (String × α)} (k : String) (v : α)
    (h : (alKeys m).Nodup) : (alKeys (alInsert m k v)).Nodup := by
  have hs : List.Sublist (alKeys (alErase m k)) (alKeys m) := (alErase_sublist m k).map Prod.fst
  have hnd : (alKeys (alErase m k)).Nodup := h.sublist hs
  have hres : (k :: alKeys (alErase m k)).Nodup :=
    List.nodup_cons.mpr ⟨alKeys_erase_not_mem m k, hnd⟩
  simpa [alInsert, alKeys] using hres

theorem mem_insert_elim {α : Type} {m : List (String × α)} {k : String} {v : α}
    {kv : String × α} (h : kv ∈ alInsert m k v) : kv = (k, v) ∨ kv ∈ m := by
  rcases List.mem_cons.mp h with h1 | h1
  · exact Or.inl h1
  · exact Or.inr ((alErase_sublist m k).mem h1)

theorem takeWhile_dropWhile_append (p : Char → Bool) (a b : List Char)
    (ha : ∀ c ∈ a, p c = true) (hb : ∀ c, b.head? = some c → p c = false) :
    (a ++ b).takeWhile p = a ∧ (a ++ b).dropWhile p = b := by
  induction a with
  | nil =>
    cases b with
    | nil => simp
    | cons c t =>
      have hc : p c = false := hb c rfl
      simp [List.takeWhile_cons, List.dropWhile_cons, hc]
  | cons x a' ih =>
    have hx : p x = true := ha x (List.mem_cons_self _ _)
    have ih2 := ih (fun c hc => ha c (List.mem_cons_of_mem _ hc))
    simp [List.takeWhile_cons, List.dropWhile_cons, hx, ih2.1, ih2.2]

/-- A line that is digits, a space run, digits, a space run, then a nonempty
whitespace-free tail is matched by `matchNumstatLine` with exactly those three
capture groups (the character classes are disjoint at each boundary, so the
greedy regex match is the maximal-munch decomposition). -/
theorem matchNumstatLine_decomp (d1 s1 d2 s2 p : List Char)
    (hd1 : d1 ≠ []) (hd1a : ∀ c ∈ d1, isDigitB c = true)
    (hs1 : s1 ≠ []) (hs1a : ∀ c ∈ s1, c = ' ')
    (hd2 : d2 ≠ []) (hd2a : ∀ c ∈ d2, isDigitB c = true)
    (hs2 : s2 ≠ []) (hs2a : ∀ c ∈ s2, c = ' ')
    (hp : p ≠ []) (hpa : ∀ c ∈ p, isRustWhitespace c = false) :
    matchNumstatLine (d1 ++ s1 ++ d2 ++ s2 ++ p).asString =
      some (d1.asString, d2.asString, p.asString) := by
  have hcs : (d1 ++ s1 ++ d2 ++ s2 ++ p).asString.toList = d1 ++ (s1 ++ (d2 ++ (s2 ++ p))) := by
    have h0 : (d1 ++ s1 ++ d2 ++ s2 ++ p).asString.toList = d1 ++ s1 ++ d2 ++ s2 ++ p := rfl
    rw [h0]
    simp [List.append_assoc]
  have hs1head : ∀ c, (s1 ++ (d2 ++ (s2 ++ p))).head? = some c → isDigitB c = false := by
    intro c hc
    cases s1 with
    | nil => exact absurd rfl hs1
    | cons x t =>
      simp at hc
      have hx : x = ' ' := hs1a x (List.mem_cons_self _ _)
      rw [← hc, hx]
      decide
  have h1 := takeWhile_dropWhile_append isDigitB d1 (s1 ++ (d2 ++ (s2 ++ p))) hd1a hs1head
  have hd2head : ∀ c, (d2 ++ (s2 ++ p)).head? = some c → isSpaceB c = false := by
    intro c hc
    cases d2 with
    | nil => exact absurd rfl hd2
    | cons x t =>
      simp at hc
      have hx : isDigitB x = true := hd2a x (List.mem_cons_self _ _)
      rw [← hc]
      have hne : x ≠ ' ' := by
        intro hsp
        rw [hsp] at hx
        exact absurd hx (by decide)
      simp [isSpaceB, hne]
  have h2 := takeWhile_dropWhile_append isSpaceB s1 (d2 ++ (s2 ++ p)) (fun c hc => by
    simp [isSpaceB, hs1a c hc]) hd2head
  have hs2head : ∀ c, (s2 ++ p).head? = some c → isDigitB c = false := by
    intro c hc
    cases s2 with
    | nil => exact absurd rfl hs2
    | cons x t =>
      simp at hc
      have hx : x = ' ' := hs2a x (List.mem_cons_self _ _)
      rw [← hc, hx]
      decide
  have h3 := takeWhile_dropWhile_append isDigitB d2 (s2 ++ p) hd2a hs2head
  have hphead : ∀ c, p.head? = some c → isSpaceB c = false := by
    intro c hc
    cases p with
    | nil => exact absurd rfl hp
    | cons x t =>
      simp at hc
      have hx : isRustWhitespace x = false := hpa x (List.mem_cons_self _ _)
      rw [← hc]
      have hne : x ≠ ' ' := by
        intro hsp
        rw [hsp] at hx
        exact absurd hx (by decide)
      simp [isSpaceB, hne]
  have h4 := takeWhile_dropWhile_append isSpaceB s2 p (fun c hc => by
    simp [isSpaceB, hs2a c hc]) hphead
  have hpall : p.all isNonWsB = true := by
    rw [List.all_eq_true]
    intro c hc
    simp [isNonWsB, hpa c hc]
  rw [matchNumstatLine]
  simp only [hcs, h1.1, h1.2, h2.1, h2.2, h3.1, h3.2, h4.1, h4.2]
  rw [if_pos ⟨hd1, hs1, hd2, hs2, hp, hpall⟩]

/-- ASCII digits are contained in the `\d` class. -/
theorem ascii_digit_isDigitB {c : Char} (h : c.isDigit = true) : isDigitB c = true := by
  simp [isDigitB, h]

/-! ## Lemmas about `parse_int` and the classifier -/

/-- A matched line as a `(path, added, removed)` triple. -/
def entOfLine (line : String) : Option (String × String × String) :=
  (matchNumstatLine line).map (fun t => (t.2.2, t.1, t.2.1))

/-- The per-path view of the parsed numeric summary: its matched lines, keyed
by path, values the two captured digit fields. -/
def matchedEntries (text : String) : List (String × String × String) :=
  (numstatLines text).filterMap entOfLine

/-- The loop body re-expressed on a matched triple. -/
def entStep (files_map : List (String × FileInfo)) (result : List (String × FileInfo))
    (ent : String × String × String) : List (String × FileInfo) :=
  match alGet files_map ent.1 with
  | some fi => alInsert result ent.1 (numstatRecord fi ent.2.1 ent.2.2)
  | none => result

theorem foldl_numstatStep_eq (fm : List (String × FileInfo)) :
    ∀ (lines : List String) (res0 : List (String × FileInfo)),
      lines.foldl (numstatStep fm) res0 = (lines.filterMap entOfLine).foldl (entStep fm) res0 := by
  intro lines
  induction lines with
  | nil => intro res0; rfl
  | cons line rest ih =>
    intro res0
    rw [List.foldl_cons]
    cases hm : matchNumstatLine line with
    | none =>
      have hstep : numstatStep fm res0 line = res0 := by
        rw [numstatStep, hm]
      have hent : entOfLine line = none := by rw [entOfLine, hm]; rfl
      rw [hstep, List.filterMap_cons, hent, ih]
    | some t =>
      obtain ⟨a, b, pth⟩ := t
      have hent : entOfLine line = some (pth, a, b) := by rw [entOfLine, hm]; rfl
      have hstep : numstatStep fm res0 line = entStep fm res0 (pth, a, b) := by
        rw [numstatStep, hm, entStep]
      rw [hstep, List.filterMap_cons, hent, List.foldl_cons, ih]

/-- When the stats buffer rendered successfully, `process_numberstats` is the
fold of `entStep` over the matched entries. -/
theorem process_numberstats_ok {d : DiffModel} {buf : Option String}
    (h : d.statsBuf = Except.ok buf) (fm : List (String × FileInfo)) :
    process_numberstats d fm =
      Except.ok ((matchedEntries (buf.getD "")).foldl (entStep fm) []) := by
  rw [process_numberstats, h]
  simp only
  rw [foldl_numstatStep_eq, matchedEntries]

/-- Keys untouched by the matched entries keep their binding. -/
theorem entStep_fold_frame (fm : List (String × FileInfo)) :
    ∀ (ents : List (String × String × String)) (res0 : List (String × FileInfo)) (p : String),
      p ∉ alKeys ents →
      alGet (ents.foldl (entStep fm) res0) p = alGet res0 p := by
  intro ents
  induction ents with
  | nil => intro res0 p _; rfl
  | cons ent rest ih =>
    intro res0 p hp
    have hq : ent.1 ≠ p := by
      intro hh
      exact hp (by simp [alKeys, hh])
    have hrest : p ∉ alKeys rest := fun hh => hp (by simp [alKeys] at hh ⊢; exact Or.inr hh)
    rw [List.foldl_cons, ih _ _ hrest]
    rw [entStep]
    cases hg : alGet fm ent.1 with
    | some fi => rw [alGet_insert_ne _ _ _ _ (fun hh => hq hh.symm)]
    | none => rfl

/-- Paths outside the status map are never added by the loop. -/
theorem entStep_fold_unknown (fm : List (String × FileInfo)) (p : String)
    (hfm : alGet fm p = none) :
    ∀ (ents : List (String × String × String)) (res0 : List (String × FileInfo)),
      alGet (ents.foldl (entStep fm) res0) p = alGet res0 p := by
  intro ents
  induction ents with
  | nil => intro res0; rfl
  | cons ent rest ih =>
    intro res0
    rw [List.foldl_cons, ih]
    rw [entStep]
    cases hg : alGet fm ent.1 with
    | some fi =>
      have hq : p ≠ ent.1 := by
        intro hh
        rw [hh, hg] at hfm
        cases hfm
      rw [alGet_insert_ne _ _ _ _ hq]
    | none => rfl

/-- A matched path known to the status map ends up bound to its parsed record
(matched paths unique). -/
theorem entStep_fold_hit (fm : List (String × FileInfo)) :
    ∀ (ents : List (String × String × String)) (res0 : List (String × FileInfo))
      (p a b : String) (fi : FileInfo),
      (alKeys ents).Nodup → (p, a, b) ∈ ents → alGet fm p = some fi →
      alGet (ents.foldl (entStep fm) res0) p = some (numstatRecord fi a b) := by
  intro ents
  induction ents with
  | nil => intro res0 p a b fi _ hmem; cases hmem
  | cons ent rest ih =>
    intro res0 p a b fi hnd hmem hget
    have hnd2 : (alKeys rest).Nodup := (List.nodup_cons.mp (by simpa [alKeys] using hnd)).2
    have hhead : ent.1 ∉ alKeys rest := (List.nodup_cons.mp (by simpa [alKeys] using hnd)).1
    rcases List.mem_cons.mp hmem with h1 | h1
    · rw [List.foldl_cons]
      have hp : ent.1 = p := by rw [← h1]
      rw [entStep_fold_frame fm rest _ p (by rw [← hp]; exact hhead)]
      rw [entStep, hp, hget, ← h1]
      exact alGet_insert_self _ _ _
    · rw [List.foldl_cons]
      exact ih _ p a b fi hnd2 h1 hget

/-- The loop's output alist has well-formed entries: each is keyed by its
path, carries a record derived from the status map by `numstatRecord`. -/
theorem entStep_fold_entries (fm : List (String × FileInfo)) :
    ∀ (ents : List (String × String × String)) (res0 : List (String × FileInfo)),
      (∀ kv ∈ res0, ∃ fi a b, alGet fm kv.1 = some fi ∧ kv.2 = numstatRecord fi a b) →
      ∀ kv ∈ ents.foldl (entStep fm) res0,
        ∃ fi a b, alGet fm kv.1 = some fi ∧ kv.2 = numstatRecord fi a b := by
  intro ents
  induction ents with
  | nil => intro res0 h0; exact h0
  | cons ent rest ih =>
    intro res0 h0
    rw [List.foldl_cons]
    apply ih
    intro kv hkv
    rw [entStep] at hkv
    cases hg : alGet fm ent.1 with
    | some fi =>
      rw [hg] at hkv
      rcases mem_insert_elim hkv with h1 | h1
      · exact ⟨fi, ent.2.1, ent.2.2, by rw [h1]; exact ⟨hg, rfl⟩⟩
      · exact h0 kv h1
    | none =>
      rw [hg] at hkv
      exact h0 kv hkv

/-- The loop's output alist is keyed consistently: when the status map binds
each path to a record carrying that path, so does the output. -/
theorem entStep_fold_wf (fm : List (String × FileInfo))
    (hfm : ∀ kv ∈ fm, kv.2.path = kv.1) :
    ∀ (ents : List (String × String × String)) (res0 : List (String × FileInfo)),
      (∀ kv ∈ res0, kv.2.path = kv.1) →
      ∀ kv ∈ ents.foldl (entStep fm) res0, kv.2.path = kv.1 := by
  intro ents
  induction ents with
  | nil => intro res0 h0; exact h0
  | cons ent rest ih =>
    intro res0 h0
    rw [List.foldl_cons]
    apply ih
    intro kv hkv
    rw [entStep] at hkv
    cases hg : alGet fm ent.1 with
    | some fi =>
      rw [hg] at hkv
      rcases mem_insert_elim hkv with h1 | h1
      · have hfi : fi.path = ent.1 := hfm (ent.1, fi) (alGet_mem hg)
        rw [h1]
        simpa [numstatRecord] using hfi
      · exact h0 kv h1
    | none =>
      rw [hg] at hkv
      exact h0 kv hkv

/-- The loop's output alist has no duplicate keys. -/
theorem entStep_fold_nodup (fm : List (String × FileInfo)) :
    ∀ (ents : List (String × String × String)) (res0 : List (String × FileInfo)),
      (alKeys res0).Nodup → (alKeys (ents.foldl (entStep fm) res0)).Nodup := by
  intro ents
  induction ents with
  | nil => intro res0 h0; exact h0
  | cons ent rest ih =>
    intro res0 h0
    rw [List.foldl_cons]
    apply ih
    rw [entStep]
    cases hg : alGet fm ent.1 with
    | some fi => exact alKeys_insert_nodup _ _ h0
    | none => exact h0

/-! ## Lemmas about the merge loop -/

/-- Paths not re-inserted by the merge keep their original binding. -/
theorem mergeUpdates_frame :
    ∀ (updates m : List (String × FileInfo)) (p : String),
      (∀ kv ∈ updates, kv.2.path = kv.1) → p ∉ alKeys updates →
      alGet (mergeUpdates m updates) p = alGet m p := by
  intro updates
  induction updates with
  | nil => intro m p _ _; rfl
  | cons kv rest ih =>
    intro m p hwf hp
    have hpath : kv.2.path = kv.1 := hwf kv (List.mem_cons_self _ _)
    have hq : kv.1 ≠ p := fun hh => hp (by simp [alKeys, hh])
    have hrest : p ∉ alKeys rest := fun hh => hp (by simp [alKeys] at hh ⊢; exact Or.inr hh)
    rw [mergeUpdates, List.foldl_cons]
    have := ih (alInsert m kv.2.path kv.2) p (fun x hx => hwf x (List.mem_cons_of_mem _ hx)) hrest
    rw [mergeUpdates] at this
    rw [this, hpath, alGet_insert_ne _ _ _ _ (fun hh => hq hh.symm)]

/-- A merged path is bound to its update record. -/
theorem mergeUpdates_hit :
    ∀ (updates m : List (String × FileInfo)) (p : String) (v : FileInfo),
      (∀ kv ∈ updates, kv.2.path = kv.1) → (alKeys updates).Nodup →
      (p, v) ∈ updates →
      alGet (mergeUpdates m updates) p = some v := by
  intro updates
  induction updates with
  | nil => intro m p v _ _ hmem; cases hmem
  | cons kv rest ih =>
    intro m p v hwf hnd hmem
    have hkeys : alKeys (kv :: rest) = kv.1 :: alKeys rest := rfl
    have hndc := List.nodup_cons.mp (hkeys ▸ hnd)
    have hwfrest : ∀ x ∈ rest, x.2.path = x.1 := fun x hx => hwf x (List.mem_cons_of_mem _ hx)
    rcases List.mem_cons.mp hmem with h1 | h1
    · rw [mergeUpdates, List.foldl_cons]
      have hfr := mergeUpdates_frame rest (alInsert m kv.2.path kv.2) p hwfrest (by
        rw [← show kv.1 = p from congrArg Prod.fst h1.symm]
        exact hndc.1)
      rw [mergeUpdates] at hfr
      rw [hfr]
      have hpath : kv.2.path = kv.1 := hwf kv (List.mem_cons_self _ _)
      have hkp : kv.1 = p := congrArg Prod.fst h1.symm
      have hv : kv.2 = v := congrArg Prod.snd h1.symm
      rw [hpath, hkp, hv]
      exact alGet_insert_self _ _ _
    · rw [mergeUpdates, List.foldl_cons]
      have := ih (alInsert m kv.2.path kv.2) p v hwfrest hndc.2 h1
      rw [mergeUpdates] at this
      rw [this]

/-- The merge preserves key uniqueness. -/
theorem mergeUpdates_nodup :
    ∀ (updates m : List (String × FileInfo)),
      (alKeys m).Nodup → (alKeys (mergeUpdates m updates)).Nodup := by
  intro updates
  induction updates with
  | nil => intro m h0; exact h0
  | cons kv rest ih =>
    intro m h0
    rw [mergeUpdates, List.foldl_cons]
    have := ih (alInsert m kv.2.path kv.2) (alKeys_insert_nodup _ _ h0)
    rw [mergeUpdates] at this
    exact this

/-- The initial status map has no duplicate keys. -/
theorem buildFilesMap_nodup :
    ∀ (ds : List DeltaModel) (acc m : List (String × FileInfo)),
      buildFilesMap ds acc = some m → (alKeys acc).Nodup → (alKeys m).Nodup := by
  intro ds
  induction ds with
  | nil =>
    intro acc m hm h0
    rw [buildFilesMap] at hm
    cases hm
    exact h0
  | cons d rest ih =>
    intro acc m hm h0
    rw [buildFilesMap] at hm
    cases hnp : d.new_file_path with
    | none => rw [hnp] at hm; cases hm
    | some p =>
      rw [hnp] at hm
      exact ih _ m hm (alKeys_insert_nodup _ _ h0)

/-- When every delta reports a path, the delta loop does not hit its
`.unwrap()`. -/
theorem buildFilesMap_total :
    ∀ (ds : List DeltaModel) (acc : List (String × FileInfo)),
      (∀ δ ∈ ds, δ.new_file_path.isSome = true) →
      ∃ m, buildFilesMap ds acc = some m := by
  intro ds
  induction ds with
  | nil => intro acc _; exact ⟨acc, rfl⟩
  | cons d rest ih =>
    intro acc hall
    cases hnp : d.new_file_path with
    | none =>
      have := hall d (List.mem_cons_self _ _)
      rw [hnp] at this
      cases this
    | some p =>
      obtain ⟨m, hm⟩ := ih _ (fun δ hδ => hall δ (List.mem_cons_of_mem _ hδ))
      exact ⟨m, by rw [buildFilesMap, hnp]; exact hm⟩

/-- Fixed fields of a successfully processed commit record. -/
theorem processCommit_ok_fields {c : CommitModel} {e : GitLogEntry}
    (h : processCommit c = StepRes.ok e) :
    e.id = c.id ∧ e.summary = c.summary ∧
    e.author_name = authorOrNone c.author_name ∧
    e.author_email = authorOrNone c.author_email ∧
    e.author_when = convert_git_time_to_datetime c.timeSeconds c.timeOffsetMinutes := by
  rw [processCommit] at h
  by_cases h1 : c.parentCount = 1
  · rw [if_pos h1] at h
    cases hd : c.diffResult with
    | error e0 => rw [hd] at h; cases h
    | ok d =>
      rw [hd] at h
      dsimp only at h
      cases hb : buildFilesMap d.deltas [] with
      | none => rw [hb] at h; cases h
      | some m0 =>
        rw [hb] at h
        dsimp only at h
        cases hp : process_numberstats d m0 with
        | error e0 => rw [hp] at h; cases h
        | ok u =>
          rw [hp] at h
          dsimp only at h
          injection h with h'
          rw [← h']
          exact ⟨rfl, rfl, rfl, rfl, rfl⟩
  · rw [if_neg h1] at h
    injection h with h'
    rw [← h']
    exact ⟨rfl, rfl, rfl, rfl, rfl⟩

/-- A commit with zero or two-plus parents is processed without a diff: the
result is the bare record with an empty file list. -/
theorem processCommit_notone {c : CommitModel} (h1 : c.parentCount ≠ 1) :
    processCommit c = StepRes.ok (mkEntry c []) := by
  rw [processCommit, if_neg h1]

/-! ## Hypothesis predicates for the amended claims (decidable, per-rev) -/

/-- The rev avoids both `.unwrap()` sites of the walker loop: its stats buffer
renders without error and every delta reports a new-file path. -/
def revSafe (rv : Except GitErr CommitModel) : Bool :=
  match rv with
  | Except.error _ => true
  | Except.ok c =>
    if c.parentCount = 1 then
      match c.diffResult with
      | Except.error _ => true
      | Except.ok d =>
        (match d.statsBuf with
         | Except.error _ => false
         | Except.ok _ => true) && d.deltas.all (fun δ => δ.new_file_path.isSome)
    else true

/-- A safe commit never panics. -/
theorem processCommit_safe {c : CommitModel} (hs : revSafe (Except.ok c) = true) :
    processCommit c ≠ StepRes.panic := by
  rw [processCommit]
  by_cases h1 : c.parentCount = 1
  · rw [if_pos h1]
    rw [revSafe] at hs
    simp only [if_pos h1] at hs
    cases hd : c.diffResult with
    | error e0 => dsimp only; intro hc; cases hc
    | ok d =>
      rw [hd] at hs
      rw [Bool.and_eq_true] at hs
      have hsplit := hs
      cases hb : d.statsBuf with
      | error e0 => rw [hb] at hsplit; cases hsplit.1
      | ok b =>
        have hall : ∀ δ ∈ d.deltas, δ.new_file_path.isSome = true :=
          List.all_eq_true.mp hsplit.2
        obtain ⟨m0, hm0⟩ := buildFilesMap_total d.deltas [] hall
        dsimp only
        rw [hm0]
        dsimp only
        rw [process_numberstats_ok hb]
        dsimp only
        intro hc; cases hc
  · rw [if_neg h1]
    intro hc; cases hc

/-- The walk never panics over safe revs. -/
theorem goWalk_no_panic :
    ∀ (revs : List (Except GitErr CommitModel)) (acc : List GitLogEntry),
      (∀ rv ∈ revs, revSafe rv = true) → goWalk revs acc ≠ WalkResult.panic := by
  intro revs
  induction revs with
  | nil => intro acc _ hc; cases hc
  | cons rv rest ih =>
    intro acc hall
    cases rv with
    | error e0 => intro hc; cases hc
    | ok c =>
      rw [goWalk]
      cases hp : processCommit c with
      | err e0 => intro hc; cases hc
      | panic => exact absurd hp (processCommit_safe (hall _ (List.mem_cons_self _ _)))
      | ok entry => exact ih _ (fun x hx => hall x (List.mem_cons_of_mem _ hx))

/-- The walker emits the commit times of the revs, in rev order. -/
def revsTimes (revs : List (Except GitErr CommitModel)) : List Int :=
  revs.filterMap (fun rv =>
    match rv with
    | Except.ok c => some (convert_git_time_to_datetime c.timeSeconds c.timeOffsetMinutes)
    | Except.error _ => none)

theorem goWalk_times :
    ∀ (revs : List (Except GitErr CommitModel)) (acc entries : List GitLogEntry),
      goWalk revs acc = WalkResult.ok entries →
      entries.map GitLogEntry.author_when =
        acc.map GitLogEntry.author_when ++ revsTimes revs := by
  intro revs
  induction revs with
  | nil =>
    intro acc entries h
    rw [goWalk] at h
    injection h with h'
    rw [← h', revsTimes]
    simp
  | cons rv rest ih =>
    intro acc entries h
    cases rv with
    | error e0 => rw [goWalk] at h; cases h
    | ok c =>
      rw [goWalk] at h
      cases hp : processCommit c with
      | err e0 => rw [hp] at h; cases h
      | panic => rw [hp] at h; cases h
      | ok entry =>
        rw [hp] at h
        have haw : entry.author_when =
            convert_git_time_to_datetime c.timeSeconds c.timeOffsetMinutes :=
          (processCommit_ok_fields hp).2.2.2.2
        have hrt : revsTimes (Except.ok c :: rest) =
            convert_git_time_to_datetime c.timeSeconds c.timeOffsetMinutes ::
              revsTimes rest := by
          rw [revsTimes, List.filterMap_cons]
          rfl
        rw [ih _ entries h, hrt]
        simp [haw]

/-- A successful walk is a successful inner loop. -/
theorem walk_history_ok_go {R : RepoModel} {entries : List GitLogEntry}
    (h : walk_history R = WalkResult.ok entries) : goWalk R.revs [] = WalkResult.ok entries := by
  rw [walk_history] at h
  cases ho : R.openResult with
  | error e0 => rw [ho] at h; cases h
  | ok u =>
    rw [ho] at h
    cases hr : R.revwalkResult with
    | error e0 => rw [hr] at h; cases h
    | ok u2 =>
      rw [hr] at h
      cases hph : R.pushHeadResult with
      | error e0 => rw [hph] at h; cases h
      | ok u3 => rw [hph] at h; exact h

/-! ## Claim C1 -/

/-- Claim C1, counterexample: the claim says the tab-separated numstat line
`"3\t1\tsrc/main.go"` yields the entry `(path src/main.go, added 3, removed 1)`.
On the code it does not: the regex `^(\d+)[ ]+(\d+)[ ]+(\S+)$` admits only
literal space runs as separators, so the line does not match and
`process_numberstats` returns an empty mapping even when the path is known. -/
theorem C1_counterexample :
    matchNumstatLine "3\t1\tsrc/main.go" = none ∧
    process_numberstats ⟨[], Except.ok (some "3\t1\tsrc/main.go")⟩
        [("src/main.go", ⟨"src/main.go", "Modified", none, none⟩)] = Except.ok [] := by
  exact ⟨rfl, rfl⟩

/-- Claim C1, amended: for every numstat line of the shape ASCII digits, a
run of spaces, ASCII digits, a run of spaces, then a nonempty path free of
Unicode whitespace — with the path present in the caller-supplied status map —
the parser produces the entry binding that path to the two parsed digit
fields. (Lines with tab separators or whitespace-containing paths do not
match and are skipped.) -/
theorem C1_amended (d1 s1 d2 s2 p : List Char) (fm : List (String × FileInfo))
    (fi : FileInfo) (dm : DiffModel)
    (hd1 : d1 ≠ []) (hd1a : ∀ c ∈ d1, c.isDigit = true)
    (hs1 : s1 ≠ []) (hs1a : ∀ c ∈ s1, c = ' ')
    (hd2 : d2 ≠ []) (hd2a : ∀ c ∈ d2, c.isDigit = true)
    (hs2 : s2 ≠ []) (hs2a : ∀ c ∈ s2, c = ' ')
    (hp : p ≠ []) (hpa : ∀ c ∈ p, isRustWhitespace c = false)
    (hb : dm.statsBuf = Except.ok (some (d1 ++ s1 ++ d2 ++ s2 ++ p).asString))
    (hsplit : numstatLines (d1 ++ s1 ++ d2 ++ s2 ++ p).asString =
      [(d1 ++ s1 ++ d2 ++ s2 ++ p).asString])
    (hfm : alGet fm p.asString = some fi) :
    process_numberstats dm fm =
      Except.ok [(p.asString, numstatRecord fi d1.asString d2.asString)] := by
  have hmatch := matchNumstatLine_decomp d1 s1 d2 s2 p hd1
    (fun c hc => ascii_digit_isDigitB (hd1a c hc)) hs1 hs1a hd2
    (fun c hc => ascii_digit_isDigitB (hd2a c hc)) hs2 hs2a hp hpa
  have hents : matchedEntries ((some (d1 ++ s1 ++ d2 ++ s2 ++ p).asString).getD "") =
      [(p.asString, d1.asString, d2.asString)] := by
    show matchedEntries (d1 ++ s1 ++ d2 ++ s2 ++ p).asString = _
    rw [matchedEntries, hsplit, List.filterMap_cons, entOfLine, hmatch]
    rfl
  rw [process_numberstats_ok hb, hents, List.foldl_cons, entStep]
  dsimp only
  rw [hfm]
  rfl

/-- Claim C1, witness: the space-separated line `"3 1 src/main.go"` with the
path known yields the entry with counts 3 and 1. -/
theorem C1_amended_witness :
    process_numberstats ⟨[], Except.ok (some "3 1 src/main.go")⟩
        [("src/main.go", ⟨"src/main.go", "Modified", none, none⟩)] =
      Except.ok [("src/main.go", ⟨"src/main.go", "Modified", some 3, some 1⟩)] := by
  exact C1_amended ['3'] [' '] ['1'] [' '] "src/main.go".toList
    [("src/main.go", ⟨"src/main.go", "Modified", none, none⟩)]
    ⟨"src/main.go", "Modified", none, none⟩
    ⟨[], Except.ok (some "3 1 src/main.go")⟩
    (by decide) (by decide) (by decide) (by decide) (by decide) (by decide)
    (by decide) (by decide) (by decide) (by decide) rfl rfl rfl

/-! ## Claim C2 -/

/-- Claim C2, counterexample: the claim says no input makes `walk_history`
terminate abnormally and every component error is returned as the error
branch. But on a repository whose single one-parent commit renders its
numeric summary with an error, `process_numberstats` returns `Err` and
`walk_history` calls `.unwrap()` on it (`main.rs:166`), panicking instead of
returning the error. -/
theorem C2_counterexample :
    walk_history
      ⟨Except.ok (), Except.ok (), Except.ok (),
        [Except.ok ⟨"c1", "m", some "n", some "e", 0, 0, 1,
          Except.ok ⟨[], Except.error ⟨"stats failed"⟩⟩⟩]⟩ = WalkResult.panic := by
  rfl

/-- Unfolding `walk_history` once the three setup calls succeed. -/
theorem walk_history_go {R : RepoModel}
    (h1 : R.openResult = Except.ok ()) (h2 : R.revwalkResult = Except.ok ())
    (h3 : R.pushHeadResult = Except.ok ()) : walk_history R = goWalk R.revs [] := by
  rw [walk_history, h1]
  dsimp only
  rw [h2]
  dsimp only
  rw [h3]

/-- The walk runs past a prefix of successfully processed commits. -/
theorem goWalk_append_ok :
    ∀ (cs : List CommitModel) (revs : List (Except GitErr CommitModel))
      (acc : List GitLogEntry),
      (∀ c ∈ cs, ∃ en, processCommit c = StepRes.ok en) →
      ∃ acc2, goWalk (cs.map Except.ok ++ revs) acc = goWalk revs acc2 := by
  intro cs
  induction cs with
  | nil => intro revs acc _; exact ⟨acc, rfl⟩
  | cons c t ih =>
    intro revs acc hall
    obtain ⟨en, hen⟩ := hall c (List.mem_cons_self _ _)
    obtain ⟨acc2, hacc2⟩ := ih revs (acc ++ [en]) (fun x hx => hall x (List.mem_cons_of_mem _ hx))
    refine ⟨acc2, ?_⟩
    rw [List.map_cons, List.cons_append, goWalk, hen]
    exact hacc2

/-- A delta with no new-file path makes the delta loop hit its `.unwrap()`. -/
theorem buildFilesMap_none :
    ∀ (ds : List DeltaModel) (acc : List (String × FileInfo)),
      (∃ δ ∈ ds, δ.new_file_path = none) → buildFilesMap ds acc = none := by
  intro ds
  induction ds with
  | nil =>
    intro acc hex
    obtain ⟨δ, hδ, _⟩ := hex
    cases hδ
  | cons d rest ih =>
    intro acc hex
    rw [buildFilesMap]
    cases hnp : d.new_file_path with
    | none => rfl
    | some pth =>
      obtain ⟨δ, hδ, hδnone⟩ := hex
      rcases List.mem_cons.mp hδ with h1 | h1
      · rw [h1, hnp] at hδnone
        cases hδnone
      · exact ih _ ⟨δ, h1, hδnone⟩

/-- A one-parent commit whose summary rendering fails or whose deltas lack a
path panics in `processCommit`. -/
theorem processCommit_panic {c : CommitModel} {d : DiffModel}
    (h1 : c.parentCount = 1) (hd : c.diffResult = Except.ok d)
    (hbad : (∃ δ ∈ d.deltas, δ.new_file_path = none) ∨
      (∃ e2, d.statsBuf = Except.error e2)) :
    processCommit c = StepRes.panic := by
  rw [processCommit, if_pos h1, hd]
  dsimp only
  rcases hbad with hdelta | ⟨e2, hsb⟩
  · rw [buildFilesMap_none d.deltas [] hdelta]
  · cases hb : buildFilesMap d.deltas [] with
    | none => rfl
    | some m0 =>
      dsimp only
      rw [process_numberstats, hsb]

/-- Claim C2, amended: errors from opening the repository, creating the
revwalk, pushing head, reading a commit, or computing a one-parent commit's
diff are each returned from `walk_history` as the error branch (the first
error encountered aborts the walk); but an error while rendering the numeric
summary, or a delta without a new-file path, instead hits an `.unwrap()`
(`main.rs:166`, `main.rs:152`) and terminates the walk abnormally (panic) —
and over revs free of those two conditions the walk never panics. -/
theorem C2_amended (R : RepoModel) (e : GitErr) (cs : List CommitModel)
    (c : CommitModel) (d : DiffModel) (rest : List (Except GitErr CommitModel)) :
    ((∀ rv ∈ R.revs, revSafe rv = true) → walk_history R ≠ WalkResult.panic) ∧
    (R.openResult = Except.error e → walk_history R = WalkResult.err e) ∧
    (R.openResult = Except.ok () → R.revwalkResult = Except.error e →
      walk_history R = WalkResult.err e) ∧
    (R.openResult = Except.ok () → R.revwalkResult = Except.ok () →
      R.pushHeadResult = Except.error e → walk_history R = WalkResult.err e) ∧
    (R.openResult = Except.ok () → R.revwalkResult = Except.ok () →
      R.pushHeadResult = Except.ok () →
      R.revs = cs.map Except.ok ++ Except.error e :: rest →
      (∀ c2 ∈ cs, ∃ en, processCommit c2 = StepRes.ok en) →
      walk_history R = WalkResult.err e) ∧
    (R.openResult = Except.ok () → R.revwalkResult = Except.ok () →
      R.pushHeadResult = Except.ok () →
      R.revs = cs.map Except.ok ++ Except.ok c :: rest →
      (∀ c2 ∈ cs, ∃ en, processCommit c2 = StepRes.ok en) →
      c.parentCount = 1 → c.diffResult = Except.error e →
      walk_history R = WalkResult.err e) ∧
    (R.openResult = Except.ok () → R.revwalkResult = Except.ok () →
      R.pushHeadResult = Except.ok () →
      R.revs = cs.map Except.ok ++ Except.ok c :: rest →
      (∀ c2 ∈ cs, ∃ en, processCommit c2 = StepRes.ok en) →
      c.parentCount = 1 → c.diffResult = Except.ok d →
      ((∃ δ ∈ d.deltas, δ.new_file_path = none) ∨ (∃ e2, d.statsBuf = Except.error e2)) →
      walk_history R = WalkResult.panic) := by
  refine ⟨?_, ?_, ?_, ?_, ?_, ?_, ?_⟩
  · intro hsafe
    rw [walk_history]
    cases ho : R.openResult with
    | error e0 => intro hc; cases hc
    | ok u =>
      cases hr : R.revwalkResult with
      | error e0 => intro hc; cases hc
      | ok u2 =>
        cases hph : R.pushHeadResult with
        | error e0 => intro hc; cases hc
        | ok u3 => exact goWalk_no_panic R.revs [] hsafe
  · intro ho
    rw [walk_history, ho]
  · intro ho hr
    rw [walk_history, ho]
    dsimp only
    rw [hr]
  · intro ho hr hph
    rw [walk_history, ho]
    dsimp only
    rw [hr]
    dsimp only
    rw [hph]
  · intro ho hr hph hrevs hok
    obtain ⟨acc2, hacc2⟩ := goWalk_append_ok cs (Except.error e :: rest) [] hok
    rw [walk_history_go ho hr hph, hrevs, hacc2, goWalk]
  · intro ho hr hph hrevs hok h1 hde
    obtain ⟨acc2, hacc2⟩ := goWalk_append_ok cs (Except.ok c :: rest) [] hok
    have hpc : processCommit c = StepRes.err e := by
      rw [processCommit, if_pos h1, hde]
    rw [walk_history_go ho hr hph, hrevs, hacc2, goWalk, hpc]
  · intro ho hr hph hrevs hok h1 hdo hbad
    obtain ⟨acc2, hacc2⟩ := goWalk_append_ok cs (Except.ok c :: rest) [] hok
    rw [walk_history_go ho hr hph, hrevs, hacc2, goWalk, processCommit_panic h1 hdo hbad]

/-- Claim C2, witness: an open failure yields the error branch; a commit-read
failure yields the error branch; a diff-computation failure yields the error
branch; a stats-rendering failure panics. -/
theorem C2_amended_witness :
    walk_history ⟨Except.error ⟨"not a repository"⟩, Except.ok (), Except.ok (), []⟩ =
      WalkResult.err ⟨"not a repository"⟩ ∧
    walk_history ⟨Except.ok (), Except.ok (), Except.ok (), [Except.error ⟨"object not found"⟩]⟩ =
      WalkResult.err ⟨"object not found"⟩ ∧
    walk_history ⟨Except.ok (), Except.ok (), Except.ok (),
        [Except.ok ⟨"c", "s", some "n", some "e", 0, 0, 1, Except.error ⟨"bad tree"⟩⟩]⟩ =
      WalkResult.err ⟨"bad tree"⟩ ∧
    walk_history ⟨Except.ok (), Except.ok (), Except.ok (),
        [Except.ok ⟨"c", "s", some "n", some "e", 0, 0, 1,
          Except.ok ⟨[], Except.error ⟨"stats boom"⟩⟩⟩]⟩ =
      WalkResult.panic := by
  refine ⟨?_, ?_, ?_, ?_⟩
  · exact (C2_amended ⟨Except.error ⟨"not a repository"⟩, Except.ok (), Except.ok (), []⟩
      ⟨"not a repository"⟩ [] ⟨"", "", none, none, 0, 0, 0, Except.error ⟨""⟩⟩
      ⟨[], Except.error ⟨""⟩⟩ []).2.1 rfl
  · exact (C2_amended ⟨Except.ok (), Except.ok (), Except.ok (), [Except.error ⟨"object not found"⟩]⟩
      ⟨"object not found"⟩ [] ⟨"", "", none, none, 0, 0, 0, Except.error ⟨""⟩⟩
      ⟨[], Except.error ⟨""⟩⟩ []).2.2.2.2.1 rfl rfl rfl rfl
      (fun c2 hc2 => by cases hc2)
  · exact (C2_amended ⟨Except.ok (), Except.ok (), Except.ok (),
        [Except.ok ⟨"c", "s", some "n", some "e", 0, 0, 1, Except.error ⟨"bad tree"⟩⟩]⟩
      ⟨"bad tree"⟩ [] ⟨"c", "s", some "n", some "e", 0, 0, 1, Except.error ⟨"bad tree"⟩⟩
      ⟨[], Except.error ⟨""⟩⟩ []).2.2.2.2.2.1 rfl rfl rfl rfl
      (fun c2 hc2 => by cases hc2) rfl rfl
  · exact (C2_amended ⟨Except.ok (), Except.ok (), Except.ok (),
        [Except.ok ⟨"c", "s", some "n", some "e", 0, 0, 1,
          Except.ok ⟨[], Except.error ⟨"stats boom"⟩⟩⟩]⟩
      ⟨"stats boom"⟩ [] ⟨"c", "s", some "n", some "e", 0, 0, 1,
        Except.ok ⟨[], Except.error ⟨"stats boom"⟩⟩⟩
      ⟨[], Except.error ⟨"stats boom"⟩⟩ []).2.2.2.2.2.2 rfl rfl rfl rfl
      (fun c2 hc2 => by cases hc2) rfl rfl (Or.inr ⟨⟨"stats boom"⟩, rfl⟩)

/-! ## Claim C3 -/

/-- Claim C3: reconciling a status mapping (from the diff deltas, so every
record is keyed by its path with absent counts) with the parsed numeric
mapping satisfies: a path in both carries its status together with the parsed
counts; a path only in the status mapping keeps its record (status, both
counts absent); a path only in the numeric mapping is absent from the result;
and the result has exactly one record per path (no duplicate keys). -/
theorem C3_reconcile (m0 updates : List (String × FileInfo)) (d : DiffModel)
    (b : Option String) (p ab rb : String) (fi : FileInfo)
    (hwf : ∀ kv ∈ m0, kv.2.path = kv.1 ∧ kv.2.added_lines = none ∧ kv.2.removed_lines = none)
    (hnd : (alKeys m0).Nodup)
    (hb : d.statsBuf = Except.ok b)
    (hents : (alKeys (matchedEntries (b.getD ""))).Nodup)
    (hupd : process_numberstats d m0 = Except.ok updates) :
    (alGet m0 p = some fi → alGet (matchedEntries (b.getD "")) p = some (ab, rb) →
      alGet (mergeUpdates m0 updates) p =
        some ⟨p, fi.status, some (parse_int ab), some (parse_int rb)⟩) ∧
    (alGet m0 p = some fi → alGet (matchedEntries (b.getD "")) p = none →
      alGet (mergeUpdates m0 updates) p = some fi) ∧
    (alGet m0 p = none → alGet (mergeUpdates m0 updates) p = none) ∧
    (alKeys (mergeUpdates m0 updates)).Nodup := by
  have huf : updates = (matchedEntries (b.getD "")).foldl (entStep m0) [] := by
    have h1 := process_numberstats_ok hb m0
    rw [hupd] at h1
    injection h1
  have hupd_wf : ∀ kv ∈ updates, kv.2.path = kv.1 := by
    rw [huf]
    exact entStep_fold_wf m0 (fun kv hkv => (hwf kv hkv).1) _ [] (fun kv hkv => by cases hkv)
  have hupd_nd : (alKeys updates).Nodup := by
    rw [huf]
    exact entStep_fold_nodup m0 _ [] List.nodup_nil
  refine ⟨?_, ?_, ?_, mergeUpdates_nodup updates m0 hnd⟩
  · intro hm hmat
    have hget_upd : alGet updates p = some (numstatRecord fi ab rb) := by
      rw [huf]
      exact entStep_fold_hit m0 _ [] p ab rb fi hents (alGet_mem hmat) hm
    have hmerged := mergeUpdates_hit updates m0 p (numstatRecord fi ab rb)
      hupd_wf hupd_nd (alGet_mem hget_upd)
    have hpath : fi.path = p := (hwf (p, fi) (alGet_mem hm)).1
    rw [hmerged, numstatRecord, hpath]
  · intro hm hnone
    have hget_upd : alGet updates p = none := by
      rw [huf, entStep_fold_frame m0 _ [] p (alGet_none_keys hnone)]
      rfl
    rw [mergeUpdates_frame updates m0 p hupd_wf (alGet_none_keys hget_upd)]
    exact hm
  · intro hm
    have hget_upd : alGet updates p = none := by
      rw [huf, entStep_fold_unknown m0 p hm]
      rfl
    rw [mergeUpdates_frame updates m0 p hupd_wf (alGet_none_keys hget_upd)]
    exact hm

/-- Claim C3, witness: with status mapping `{a.txt: Added, b.txt: Modified}`
and numeric summary `"5 0 a.txt"`, the reconciled records are
`a.txt → (Added, 5, 0)` and `b.txt → (Modified, absent, absent)`, one record
per path. -/
theorem C3_reconcile_witness :
    alGet (mergeUpdates
        [("a.txt", ⟨"a.txt", "Added", none, none⟩), ("b.txt", ⟨"b.txt", "Modified", none, none⟩)]
        [("a.txt", ⟨"a.txt", "Added", some 5, some 0⟩)]) "a.txt" =
      some ⟨"a.txt", "Added", some 5, some 0⟩ ∧
    alGet (mergeUpdates
        [("a.txt", ⟨"a.txt", "Added", none, none⟩), ("b.txt", ⟨"b.txt", "Modified", none, none⟩)]
        [("a.txt", ⟨"a.txt", "Added", some 5, some 0⟩)]) "b.txt" =
      some ⟨"b.txt", "Modified", none, none⟩ ∧
    (alKeys (mergeUpdates
        [("a.txt", ⟨"a.txt", "Added", none, none⟩), ("b.txt", ⟨"b.txt", "Modified", none, none⟩)]
        [("a.txt", ⟨"a.txt", "Added", some 5, some 0⟩)])).Nodup := by
  have h1 := C3_reconcile
    [("a.txt", ⟨"a.txt", "Added", none, none⟩), ("b.txt", ⟨"b.txt", "Modified", none, none⟩)]
    [("a.txt", ⟨"a.txt", "Added", some 5, some 0⟩)]
    ⟨[], Except.ok (some "5 0 a.txt")⟩ (some "5 0 a.txt")
    "a.txt" "5" "0" ⟨"a.txt", "Added", none, none⟩
    (by decide) (by decide) rfl (by decide) rfl
  have h2 := C3_reconcile
    [("a.txt", ⟨"a.txt", "Added", none, none⟩), ("b.txt", ⟨"b.txt", "Modified", none, none⟩)]
    [("a.txt", ⟨"a.txt", "Added", some 5, some 0⟩)]
    ⟨[], Except.ok (some "5 0 a.txt")⟩ (some "5 0 a.txt")
    "b.txt" "5" "0" ⟨"b.txt", "Modified", none, none⟩
    (by decide) (by decide) rfl (by decide) rfl
  exact ⟨h1.1 (by decide) (by decide), h2.2.1 (by decide) (by decide), h1.2.2.2⟩

/-! ## Claim C4 -/

/-- Claim C4: a numstat line using the binary-file convention (`"-"` in place
of each digit field, e.g. `"-\t-\tbinary.bin"`) leaves the parsed update
mapping empty, so the file's record — present in the status map — survives
reconciliation with both counts in the distinct absent state: not zero, not a
sentinel number, and the file is not dropped from the result. -/
theorem C4_binary (m : List (String × FileInfo)) (fi : FileInfo) (d : DiffModel)
    (hm : alGet m "binary.bin" = some fi)
    (ha : fi.added_lines = none) (hr : fi.removed_lines = none)
    (hb : d.statsBuf = Except.ok (some "-\t-\tbinary.bin")) :
    process_numberstats d m = Except.ok [] ∧
    alGet (mergeUpdates m []) "binary.bin" = some fi ∧
    fi.added_lines = none ∧ fi.removed_lines = none := by
  have hents : matchedEntries ((some "-\t-\tbinary.bin").getD "") = [] := by decide
  refine ⟨?_, hm, ha, hr⟩
  rw [process_numberstats_ok hb, hents]
  rfl

/-- Claim C4, witness: the concrete binary line with the file classified
`Modified` keeps the entry with both counts absent. -/
theorem C4_binary_witness :
    process_numberstats ⟨[], Except.ok (some "-\t-\tbinary.bin")⟩
        [("binary.bin", ⟨"binary.bin", "Modified", none, none⟩)] = Except.ok [] ∧
    alGet (mergeUpdates [("binary.bin", ⟨"binary.bin", "Modified", none, none⟩)] [])
        "binary.bin" = some ⟨"binary.bin", "Modified", none, none⟩ ∧
    FileInfo.added_lines ⟨"binary.bin", "Modified", none, none⟩ = none ∧
    FileInfo.removed_lines ⟨"binary.bin", "Modified", none, none⟩ = none := by
  exact C4_binary [("binary.bin", ⟨"binary.bin", "Modified", none, none⟩)]
    ⟨"binary.bin", "Modified", none, none⟩
    ⟨[], Except.ok (some "-\t-\tbinary.bin")⟩ (by decide) rfl rfl rfl

/-! ## Claim C5 helpers -/

/-- Claim C6: for a commit with zero parents or with two or more parents the
walker computes no diff — the record is the bare entry (independent of the
commit's diff outcome) and its files set is empty. -/
theorem C6_no_diff (c : CommitModel) (h : c.parentCount ≠ 1) :
    processCommit c = StepRes.ok (mkEntry c []) ∧ (mkEntry c []).files = [] :=
  ⟨processCommit_notone h, rfl⟩

/-- Claim C6, witness: a root commit (0 parents) and a merge commit (2
parents) each produce an empty files set, even though their diff outcome is
an error (showing no diff is consulted). -/
theorem C6_no_diff_witness :
    (processCommit ⟨"r", "s", some "n", some "e", 0, 0, 0, Except.error ⟨"unused"⟩⟩ =
        StepRes.ok (mkEntry ⟨"r", "s", some "n", some "e", 0, 0, 0, Except.error ⟨"unused"⟩⟩ []) ∧
      (mkEntry ⟨"r", "s", some "n", some "e", 0, 0, 0, Except.error ⟨"unused"⟩⟩ []).files = []) ∧
    (processCommit ⟨"m", "s", some "n", some "e", 0, 0, 2, Except.error ⟨"unused"⟩⟩ =
        StepRes.ok (mkEntry ⟨"m", "s", some "n", some "e", 0, 0, 2, Except.error ⟨"unused"⟩⟩ []) ∧
      (mkEntry ⟨"m", "s", some "n", some "e", 0, 0, 2, Except.error ⟨"unused"⟩⟩ []).files = []) :=
  ⟨C6_no_diff ⟨"r", "s", some "n", some "e", 0, 0, 0, Except.error ⟨"unused"⟩⟩ (by decide),
   C6_no_diff ⟨"m", "s", some "n", some "e", 0, 0, 2, Except.error ⟨"unused"⟩⟩ (by decide)⟩

/-! ## Claim C7 -/

/-- When the revs share one UTC offset, ascending commit seconds give
ascending converted times. -/
theorem chain_author_conv (off : Int) :
    ∀ cs : List CommitModel, (∀ c ∈ cs, c.timeOffsetMinutes = off) →
      List.Chain' (fun a b : CommitModel => a.timeSeconds ≤ b.timeSeconds) cs →
      List.Chain' (fun a b : CommitModel =>
        convert_git_time_to_datetime a.timeSeconds a.timeOffsetMinutes ≤
          convert_git_time_to_datetime b.timeSeconds b.timeOffsetMinutes) cs := by
  intro cs
  induction cs with
  | nil => intro _ _; exact List.chain'_nil
  | cons a t ih =>
    cases t with
    | nil => intro _ _; exact List.chain'_singleton a
    | cons b t2 =>
      intro hoff hch
      rw [List.chain'_cons] at hch ⊢
      refine ⟨?_, ih (fun c hc => hoff c (List.mem_cons_of_mem _ hc)) hch.2⟩
      have ha := hoff a (List.mem_cons_self _ _)
      have hb := hoff b (List.mem_cons_of_mem _ (List.mem_cons_self _ _))
      rw [convert_git_time_to_datetime, convert_git_time_to_datetime, ha, hb]
      exact add_le_add_right hch.1 _

/-- `revsTimes` over all-ok revs is the mapped conversion. -/
theorem revsTimes_map :
    ∀ cs : List CommitModel, revsTimes (cs.map Except.ok) =
      cs.map (fun c => convert_git_time_to_datetime c.timeSeconds c.timeOffsetMinutes) := by
  intro cs
  induction cs with
  | nil => rfl
  | cons c t ih =>
    rw [List.map_cons]
    have hstep : revsTimes (Except.ok c :: List.map Except.ok t) =
        convert_git_time_to_datetime c.timeSeconds c.timeOffsetMinutes ::
          revsTimes (List.map Except.ok t) := by
      rw [revsTimes, List.filterMap_cons]
      rfl
    rw [hstep, ih, List.map_cons]

/-- Claim C7, counterexample: the claim says `author_when` is ascending along
the walk. With the revs presented in ascending commit-seconds order (1000
then 2000) but differing UTC offsets, the computed `author_when` values
(seconds + offset·60) are 4600 then 2000 — descending. -/
theorem C7_counterexample :
    walk_history ⟨Except.ok (), Except.ok (), Except.ok (),
        [Except.ok ⟨"c1", "m1", some "n", some "e", 1000, 60, 0,
            Except.ok ⟨[], Except.ok (some "")⟩⟩,
         Except.ok ⟨"c2", "m2", some "n", some "e", 2000, 0, 0,
            Except.ok ⟨[], Except.ok (some "")⟩⟩]⟩ =
      WalkResult.ok [⟨"c1", "m1", "n", "e", 4600, []⟩, ⟨"c2", "m2", "n", "e", 2000, []⟩] ∧
    (1000 : Int) ≤ 2000 ∧
    ¬(GitLogEntry.author_when ⟨"c1", "m1", "n", "e", 4600, []⟩ ≤
        GitLogEntry.author_when ⟨"c2", "m2", "n", "e", 2000, []⟩) := by
  exact ⟨rfl, by decide, by decide⟩

/-- Claim C7, amended: when the traversal yields the commits ascending in
their raw commit-time seconds (the order the requested TIME|REVERSE sorting
provides) and all commits carry the same UTC offset, the walk's records are
ascending in `author_when`; with differing offsets the offset shift
(seconds + offset·60) can break the order. -/
theorem C7_amended (R : RepoModel) (cs : List CommitModel) (off : Int)
    (entries : List GitLogEntry)
    (hrevs : R.revs = cs.map Except.ok)
    (hasc : List.Chain' (fun a b : CommitModel => a.timeSeconds ≤ b.timeSeconds) cs)
    (hoff : ∀ c ∈ cs, c.timeOffsetMinutes = off)
    (hw : walk_history R = WalkResult.ok entries) :
    List.Chain' (fun e1 e2 : GitLogEntry => e1.author_when ≤ e2.author_when) entries := by
  have htimes := goWalk_times R.revs [] entries (walk_history_ok_go hw)
  rw [hrevs, revsTimes_map] at htimes
  rw [List.map_nil, List.nil_append] at htimes
  have hchain := chain_author_conv off cs hoff hasc
  have hchain2 : List.Chain' (fun x y : Int => x ≤ y)
      (cs.map (fun c => convert_git_time_to_datetime c.timeSeconds c.timeOffsetMinutes)) :=
    (List.chain'_map _).mpr hchain
  rw [← htimes] at hchain2
  exact (List.chain'_map _).mp hchain2

/-- Claim C7, witness: two commits with seconds 1000 then 2000 at offset 0
yield records ascending in `author_when`. -/
theorem C7_amended_witness :
    List.Chain' (fun e1 e2 : GitLogEntry => e1.author_when ≤ e2.author_when)
      [⟨"c1", "m1", "n", "e", 1000, []⟩, ⟨"c2", "m2", "n", "e", 2000, []⟩] := by
  exact C7_amended
    ⟨Except.ok (), Except.ok (), Except.ok (),
      [Except.ok ⟨"c1", "m1", some "n", some "e", 1000, 0, 0,
          Except.ok ⟨[], Except.ok (some "")⟩⟩,
       Except.ok ⟨"c2", "m2", some "n", some "e", 2000, 0, 0,
          Except.ok ⟨[], Except.ok (some "")⟩⟩]⟩
    [⟨"c1", "m1", some "n", some "e", 1000, 0, 0, Except.ok ⟨[], Except.ok (some "")⟩⟩,
     ⟨"c2", "m2", some "n", some "e", 2000, 0, 0, Except.ok ⟨[], Except.ok (some "")⟩⟩]
    0
    [⟨"c1", "m1", "n", "e", 1000, []⟩, ⟨"c2", "m2", "n", "e", 2000, []⟩]
    rfl (by rw [List.chain'_cons]; exact ⟨by decide, List.chain'_singleton _⟩)
    (by decide) rfl

/-! ## Claim C8 -/

/-- Claim C8: a commit whose author metadata lacks a name or email gets the
literal `"<none>"` (which is not the empty string) in the corresponding
record field; present metadata values are used unchanged. -/
theorem C8_author_default (c : CommitModel) (e : GitLogEntry) (n m : String)
    (h : processCommit c = StepRes.ok e) :
    (c.author_name = none → e.author_name = "<none>") ∧
    (c.author_name = some n → e.author_name = n) ∧
    (c.author_email = none → e.author_email = "<none>") ∧
    (c.author_email = some m → e.author_email = m) ∧
    ("<none>" : String) ≠ "" := by
  obtain ⟨_, _, hn, he2, _⟩ := processCommit_ok_fields h
  refine ⟨?_, ?_, ?_, ?_, by decide⟩
  · intro h0
    rw [hn, h0]
    rfl
  · intro h0
    rw [hn, h0]
    rfl
  · intro h0
    rw [he2, h0]
    rfl
  · intro h0
    rw [he2, h0]
    rfl

/-- Claim C8, witness: a commit with no author name and email `"x@y"` yields
`author_name = "<none>"` and `author_email = "x@y"`. -/
theorem C8_author_default_witness :
    (CommitModel.author_name
        ⟨"r", "s", none, some "x@y", 0, 0, 0, Except.ok ⟨[], Except.ok (some "")⟩⟩ = none →
      GitLogEntry.author_name ⟨"r", "s", "<none>", "x@y", 0, []⟩ = "<none>") ∧
    (CommitModel.author_name
        ⟨"r", "s", none, some "x@y", 0, 0, 0, Except.ok ⟨[], Except.ok (some "")⟩⟩ = some "z" →
      GitLogEntry.author_name ⟨"r", "s", "<none>", "x@y", 0, []⟩ = "z") ∧
    (CommitModel.author_email
        ⟨"r", "s", none, some "x@y", 0, 0, 0, Except.ok ⟨[], Except.ok (some "")⟩⟩ = none →
      GitLogEntry.author_email ⟨"r", "s", "<none>", "x@y", 0, []⟩ = "<none>") ∧
    (CommitModel.author_email
        ⟨"r", "s", none, some "x@y", 0, 0, 0, Except.ok ⟨[], Except.ok (some "")⟩⟩ = some "x@y" →
      GitLogEntry.author_email ⟨"r", "s", "<none>", "x@y", 0, []⟩ = "x@y") ∧
    ("<none>" : String) ≠ "" := by
  exact C8_author_default
    ⟨"r", "s", none, some "x@y", 0, 0, 0, Except.ok ⟨[], Except.ok (some "")⟩⟩
    ⟨"r", "s", "<none>", "x@y", 0, []⟩ "z" "x@y" rfl

/-! ## Claim C9 -/

/-- Claim C9: the numeric-summary reconciliation only fills in counts — for
every path of the status map the final record keeps exactly the path and
status the classifier assigned, and no path is added or removed by the merge. -/
theorem C9_frame (m0 updates : List (String × FileInfo)) (d : DiffModel)
    (p : String) (fi : FileInfo)
    (hwf : ∀ kv ∈ m0, kv.2.path = kv.1)
    (hupd : process_numberstats d m0 = Except.ok updates) :
    (alGet m0 p = some fi →
      (alGet (mergeUpdates m0 updates) p).map FileInfo.path = some fi.path ∧
      (alGet (mergeUpdates m0 updates) p).map FileInfo.status = some fi.status) ∧
    (alGet m0 p = none → alGet (mergeUpdates m0 updates) p = none) := by
  cases hsb : d.statsBuf with
  | error e0 =>
    rw [process_numberstats, hsb] at hupd
    cases hupd
  | ok b =>
    have huf : updates = (matchedEntries (b.getD "")).foldl (entStep m0) [] := by
      have h2 := process_numberstats_ok hsb m0
      rw [hupd] at h2
      injection h2
    have hupd_wf : ∀ kv ∈ updates, kv.2.path = kv.1 := by
      rw [huf]
      exact entStep_fold_wf m0 hwf _ [] (fun kv hkv => by cases hkv)
    have hupd_nd : (alKeys updates).Nodup := by
      rw [huf]
      exact entStep_fold_nodup m0 _ [] List.nodup_nil
    constructor
    · intro hm
      cases hu : alGet updates p with
      | none =>
        rw [mergeUpdates_frame updates m0 p hupd_wf (alGet_none_keys hu), hm]
        exact ⟨rfl, rfl⟩
      | some w =>
        have hmem := alGet_mem hu
        have hmerged := mergeUpdates_hit updates m0 p w hupd_wf hupd_nd hmem
        have hw : ∃ fi2 a b2, alGet m0 p = some fi2 ∧ w = numstatRecord fi2 a b2 := by
          rw [huf] at hmem
          exact entStep_fold_entries m0 _ [] (fun kv hkv => by cases hkv) (p, w) hmem
        obtain ⟨fi2, a, b2, hfi2, hwrec⟩ := hw
        rw [hm] at hfi2
        injection hfi2 with hfi2'
        rw [hmerged, hwrec, ← hfi2']
        exact ⟨rfl, rfl⟩
    · intro hm
      have hu : alGet updates p = none := by
        rw [huf, entStep_fold_unknown m0 p hm]
        rfl
      rw [mergeUpdates_frame updates m0 p hupd_wf (alGet_none_keys hu)]
      exact hm

/-- Claim C9, witness: merging the parsed counts for `x.txt` keeps its path
and status and adds no entry for an unknown path. -/
theorem C9_frame_witness :
    ((alGet (mergeUpdates [("x.txt", ⟨"x.txt", "Modified", none, none⟩)]
        [("x.txt", ⟨"x.txt", "Modified", some 7, some 2⟩)]) "x.txt").map FileInfo.path =
      some "x.txt" ∧
     (alGet (mergeUpdates [("x.txt", ⟨"x.txt", "Modified", none, none⟩)]
        [("x.txt", ⟨"x.txt", "Modified", some 7, some 2⟩)]) "x.txt").map FileInfo.status =
      some "Modified") ∧
    alGet (mergeUpdates [("x.txt", ⟨"x.txt", "Modified", none, none⟩)]
        [("x.txt", ⟨"x.txt", "Modified", some 7, some 2⟩)]) "other" = none := by
  have h1 := C9_frame [("x.txt", ⟨"x.txt", "Modified", none, none⟩)]
    [("x.txt", ⟨"x.txt", "Modified", some 7, some 2⟩)]
    ⟨[], Except.ok (some "7 2 x.txt")⟩ "x.txt" ⟨"x.txt", "Modified", none, none⟩
    (by decide) rfl
  have h2 := C9_frame [("x.txt", ⟨"x.txt", "Modified", none, none⟩)]
    [("x.txt", ⟨"x.txt", "Modified", some 7, some 2⟩)]
    ⟨[], Except.ok (some "7 2 x.txt")⟩ "other" ⟨"x.txt", "Modified", none, none⟩
    (by decide) rfl
  exact ⟨h1.1 (by decide), h2.2 (by decide)⟩

/-! ## Claim C10 -/

/-- Claim C10: a stats buffer that is not valid UTF-8 is decoded to the empty
text, so `process_numberstats` succeeds with an empty update mapping (no
error, walk not aborted) and the merge leaves every record — and hence its
absent counts — unchanged. -/
theorem C10_invalid_utf8 (d : DiffModel) (m : List (String × FileInfo))
    (h : d.statsBuf = Except.ok none) :
    process_numberstats d m = Except.ok [] ∧ mergeUpdates m [] = m := by
  constructor
  · rw [process_numberstats_ok h]
    have hempty : matchedEntries ((none : Option String).getD "") = [] := by decide
    rw [hempty]
    rfl
  · rfl

/-- Claim C10, witness: an invalid-UTF-8 buffer over a one-entry status map
returns success with the empty mapping and leaves the map unchanged. -/
theorem C10_invalid_utf8_witness :
    process_numberstats ⟨[], Except.ok none⟩ [("k", ⟨"k", "Added", none, none⟩)] =
      Except.ok [] ∧
    mergeUpdates [("k", ⟨"k", "Added", none, none⟩)] [] =
      [("k", ⟨"k", "Added", none, none⟩)] :=
  C10_invalid_utf8 ⟨[], Except.ok none⟩ [("k", ⟨"k", "Added", none, none⟩)] rfl

end GitAnalyzer
